import Mathlib

/-!
# Verification of the todo application's server and client logic

Shallow embedding of:
* `server/index.js` — the Express CRUD handlers for `/api/todos`
  (create, reorder, partial update),
* `server/storage.js` — the local-file and Netlify-blob read paths,
* `src/app/app.ts` (the `App` component) — the client's derived views
  (overdue, archived, filtered), optimistic toggle, add, and the
  archive threshold constant.

JavaScript numbers that hold epoch milliseconds or ids are modelled as `Int`;
JSON values as the inductive `Jval`.  Field access on parsed JSON bodies is
modelled with association lists (`List (String × Jval)`); JSON.parse yields
objects with unique keys, so first-match lookup agrees with JS semantics.
-/

mutual

/-- A JSON value, as produced by `express.json()` body parsing.
(Array elements and object entries use the mutually defined list types so
that equality stays decidable.) -/
inductive Jval where
  | null : Jval
  | bool : Bool → Jval
  | num : Int → Jval
  | str : String → Jval
  | arr : JvalList → Jval
  | obj : JvalObj → Jval
deriving DecidableEq

inductive JvalList where
  | nil : JvalList
  | cons : Jval → JvalList → JvalList
deriving DecidableEq

inductive JvalObj where
  | nil : JvalObj
  | cons : String → Jval → JvalObj → JvalObj
deriving DecidableEq

end

instance {ε α : Type} [DecidableEq ε] [DecidableEq α] : DecidableEq (Except ε α) := fun x y =>
  match x, y with
  | .ok a, .ok b =>
    if h : a = b then .isTrue (by rw [h]) else .isFalse (fun hh => h (by cases hh; rfl))
  | .error a, .error b =>
    if h : a = b then .isTrue (by rw [h]) else .isFalse (fun hh => h (by cases hh; rfl))
  | .ok _, .error _ => .isFalse (fun hh => Except.noConfusion hh)
  | .error _, .ok _ => .isFalse (fun hh => Except.noConfusion hh)

/--
A stored todo record on the server.  `id` is always a number
(assigned from `Date.now()`); the other five fields are stored verbatim
from request bodies, which the `PUT` handler does not always type-check,
so they are modelled as raw JSON values.
-/
structure ServerTodo where
  id : Int
  text : Jval
  completed : Jval
  priority : Jval
  dueDate : Jval
  completedAt : Jval
deriving DecidableEq

/-- The JS whitespace characters relevant to `String.prototype.trim`
(the full JS set also has `\f`, `\v` and Unicode spaces; the claims only
involve the ASCII ones). -/
def isJsSpace (c : Char) : Bool := c = ' ' || c = '\t' || c = '\n' || c = '\r'

/-- JS `s.trim()`. -/
def jsTrim (s : String) : String :=
  ⟨((s.data.dropWhile isJsSpace).reverse.dropWhile isJsSpace).reverse⟩

/-- JS `s.length` (UTF-16 units; equal to the code-point count for all
text in scope). -/
def jsLength (s : String) : Nat := s.data.length

/-- `DATE_REGEX = /^\d{4}-\d{2}-\d{2}$/` from `server/index.js`. -/
def matchesDateRegex (s : String) : Bool :=
  match s.data with
  | [a, b, c, d, e, f, g, h2, i, j] =>
    a.isDigit && b.isDigit && c.isDigit && d.isDigit && e = '-' &&
    f.isDigit && g.isDigit && h2 = '-' && i.isDigit && j.isDigit
  | _ => false

/-- `VALID_PRIORITIES.includes(v)`: `includes` uses strict equality, so only
the three exact strings match; any non-string JSON value fails. -/
def validPriority (v : Jval) : Bool :=
  decide (v = Jval.str "low") || decide (v = Jval.str "medium") || decide (v = Jval.str "high")

/-- `dueDate === null || (typeof dueDate === 'string' && DATE_REGEX.test(dueDate))`. -/
def validDueDate (v : Jval) : Bool :=
  match v with
  | .null => true
  | .str s => matchesDateRegex s
  | _ => false

/--
`POST /api/todos` (`server/index.js` lines 175–198), after the destructuring
`{ text, priority = 'medium', dueDate = null } = req.body` has applied the
defaults.  `now` is the handler's `Date.now()` reading.  On success the new
record is pushed onto the end of the stored list and returned.
The first check collapses `!text || typeof text !== 'string' || !text.trim()`:
every non-string value and every string with blank trim is rejected there.
-/
def createTodo (todos : List ServerTodo) (now : Int) (text priority dueDate : Jval) :
    Except String (List ServerTodo × ServerTodo) :=
  match text with
  | .str s =>
    if jsTrim s = "" then .error "text is required"
    else if jsLength (jsTrim s) > 500 then .error "text must be 500 characters or less"
    else if !validPriority priority then .error "priority must be low, medium, or high"
    else if !validDueDate dueDate then .error "dueDate must be in YYYY-MM-DD format"
    else
      let todo : ServerTodo :=
        { id := now, text := .str (jsTrim s), completed := .bool false,
          priority := priority, dueDate := dueDate, completedAt := .null }
      .ok (todos ++ [todo], todo)
  | _ => .error "text is required"

/-- One create request together with the `Date.now()` reading the handler
observes while serving it. -/
structure CreateReq where
  now : Int
  text : Jval
  priority : Jval
  dueDate : Jval
deriving DecidableEq

/-- A sequence of create requests applied in order; `none` when any request
fails validation.  Returns the final stored list and the created records in
creation order. -/
def createMany (todos : List ServerTodo) : List CreateReq → Option (List ServerTodo × List ServerTodo)
  | [] => some (todos, [])
  | r :: rs =>
    match createTodo todos r.now r.text r.priority r.dueDate with
    | .error _ => none
    | .ok (todos', rec) =>
      match createMany todos' rs with
      | none => none
      | some (final, recs) => some (final, rec :: recs)

/--
`new Map(todos.map(t => [t.id, t])).get(i)`: a JS `Map` built from an entry
list keeps the **last** entry for a duplicated key, hence `getLast?`.
-/
def lookupById (todos : List ServerTodo) (i : Int) : Option ServerTodo :=
  (todos.filter (fun t => t.id = i)).getLast?

/--
`PATCH /api/todos/reorder` (`server/index.js` lines 201–218) after the
`ids must be an array of numbers` check (our `ids : List Int` already
satisfies it).  `ids.map(id => todoMap.get(id)).filter(Boolean)` is
`filterMap`, because every todo object is truthy.  The handler accepts
— and overwrites the store with `reordered` — exactly when the hit count
equals the stored length.
-/
def reorderTodos (todos : List ServerTodo) (ids : List Int) : Except String (List ServerTodo) :=
  let reordered := ids.filterMap (lookupById todos)
  if reordered.length = todos.length then .ok reordered
  else .error "ids do not match stored todos"

/-- `ALLOWED_UPDATE_FIELDS` from `server/index.js` line 21. -/
def ALLOWED_UPDATE_FIELDS : List String :=
  ["text", "completed", "completedAt", "priority", "dueDate"]

/--
The body application step of `PUT /api/todos/:id`:
`update` collects `req.body[f]` for each allow-listed field `f` present in
the body, then `todos[idx] = { ...todos[idx], ...update, id }`.  Object
spread overrides per key, so each allow-listed field takes the body's value
when present, and `id` is reinstated from the route parameter (which equals
the record's own id, since the record was found by that id).
-/
def applyUpdate (t : ServerTodo) (body : List (String × Jval)) : ServerTodo :=
  { id := t.id
    text := (body.lookup "text").getD t.text
    completed := (body.lookup "completed").getD t.completed
    priority := (body.lookup "priority").getD t.priority
    dueDate := (body.lookup "dueDate").getD t.dueDate
    completedAt := (body.lookup "completedAt").getD t.completedAt }

/-- The `'text' in req.body` validation block of the PUT handler. -/
def putTextError (body : List (String × Jval)) : Option String :=
  match body.lookup "text" with
  | none => none
  | some (.str s) =>
    if jsTrim s = "" then some "text must be a non-empty string"
    else if jsLength (jsTrim s) > 500 then some "text must be 500 characters or less"
    else none
  | some _ => some "text must be a non-empty string"

/-- The `'priority' in req.body` validation block of the PUT handler. -/
def putPriorityError (body : List (String × Jval)) : Option String :=
  match body.lookup "priority" with
  | none => none
  | some v => if validPriority v then none else some "priority must be low, medium, or high"

/-- The `'dueDate' in req.body` validation block of the PUT handler. -/
def putDueDateError (body : List (String × Jval)) : Option String :=
  match body.lookup "dueDate" with
  | none => none
  | some v => if validDueDate v then none else some "dueDate must be in YYYY-MM-DD format or null"

/-- `todos.findIndex(t => t.id === id)` followed by in-place replacement of
the found record: replaces the first record with the given id and also
returns the updated record. -/
def updateById (id : Int) (body : List (String × Jval)) :
    List ServerTodo → Option (List ServerTodo × ServerTodo)
  | [] => none
  | t :: rest =>
    if t.id = id then some (applyUpdate t body :: rest, applyUpdate t body)
    else
      match updateById id body rest with
      | none => none
      | some (rest', r) => some (t :: rest', r)

/--
`PUT /api/todos/:id` (`server/index.js` lines 221–256): field-level
validation of `text`, `priority`, `dueDate` when present (never of
`completed` / `completedAt`), then 404 when no record matches, otherwise
the merged record is stored and returned.
-/
def putTodo (todos : List ServerTodo) (id : Int) (body : List (String × Jval)) :
    Except String (List ServerTodo × ServerTodo) :=
  match putTextError body with
  | some e => .error e
  | none =>
    match putPriorityError body with
    | some e => .error e
    | none =>
      match putDueDateError body with
      | some e => .error e
      | none =>
        match updateById id body todos with
        | none => .error "Todo not found"
        | some (todos', r) => .ok (todos', r)

example :
    createTodo [] 100 (.str " hi ") (.str "medium") .null =
      .ok ([{ id := 100, text := .str "hi", completed := .bool false,
              priority := .str "medium", dueDate := .null, completedAt := .null }],
           { id := 100, text := .str "hi", completed := .bool false,
             priority := .str "medium", dueDate := .null, completedAt := .null }) := by
  decide

example : matchesDateRegex "2024-05-06" = true := by decide
example : matchesDateRegex "2024-5-6" = false := by decide

/-! ## Storage layer (`server/storage.js`)

`JSON.parse` is the only external call in the read paths; it is passed in
as a `String → Option Jval` argument (`none` models a parse exception).
The backing medium is `none` when the file/blob is absent.
-/

/-- `readUsersLocal`: missing file yields `[]`; a parse failure is caught
and yields `[]`; otherwise the parsed value is returned verbatim. -/
def readUsersLocal (parse : String → Option Jval) (file : Option String) : Jval :=
  match file with
  | none => .arr .nil
  | some raw => (parse raw).getD (.arr .nil)

/-- `readTodosLocal`: same shape as `readUsersLocal`, reading
`todos/<safeName(username)>.json`. -/
def readTodosLocal (parse : String → Option Jval) (file : Option String) : Jval :=
  match file with
  | none => .arr .nil
  | some raw => (parse raw).getD (.arr .nil)

/-- `readUsersNetlify`: `store.get` yields `null` for an absent key (and the
code also treats an empty string as absent, `raw ? JSON.parse(raw) : []`);
a parse failure is caught and yields `[]`. -/
def readUsersNetlify (parse : String → Option Jval) (blob : Option String) : Jval :=
  match blob with
  | none => .arr .nil
  | some raw => if raw = "" then .arr .nil else (parse raw).getD (.arr .nil)

/-- `readTodosNetlify`: same shape as `readUsersNetlify` on the `todos`
blob store. -/
def readTodosNetlify (parse : String → Option Jval) (blob : Option String) : Jval :=
  match blob with
  | none => .arr .nil
  | some raw => if raw = "" then .arr .nil else (parse raw).getD (.arr .nil)

/-! ## Client model (`src/app/app.ts`, the `App` component) -/

/-- `type Priority = 'low' | 'medium' | 'high'`. -/
inductive Priority where
  | low : Priority
  | medium : Priority
  | high : Priority
deriving DecidableEq

/-- The client's `Todo` interface.  `dueDate` and `completedAt` are the
optional fields; the client (unlike the server store) holds them typed. -/
structure ClientTodo where
  id : Int
  text : String
  completed : Bool
  priority : Priority
  dueDate : Option String
  completedAt : Option Int
deriving DecidableEq

/-- `type Filter = 'all' | 'active' | 'completed'` (named `StatusFilter`
here; `Filter` is taken by Mathlib). -/
inductive StatusFilter where
  | all : StatusFilter
  | active : StatusFilter
  | completed : StatusFilter
deriving DecidableEq

/-- The priority filter signal: `Priority | 'all'`. -/
inductive PriorityFilter where
  | anyPriority : PriorityFilter
  | only : Priority → PriorityFilter
deriving DecidableEq

/-- The three filter signals that `filteredTodos` reads. -/
structure FilterState where
  filter : StatusFilter
  priorityFilter : PriorityFilter
  showCompleted : Bool
deriving DecidableEq

/-- `ARCHIVE_THRESHOLD_MS = 5 * 24 * 60 * 60 * 1000` (5 days). -/
def ARCHIVE_THRESHOLD_MS : Int := 5 * 24 * 60 * 60 * 1000

/-- A local calendar date (what remains of a JS `Date` after
`setHours(0, 0, 0, 0)`). -/
structure CalDate where
  year : Int
  month : Int
  day : Int
deriving DecidableEq

/--
Day count since 1970-01-01 of the civil date `(y, m, d)` for `m ∈ [1,12]`
(`d` may be out of range; it contributes linearly, exactly as in the
ECMAScript `MakeDay` operation).  This is the standard civil-from-days
computation used by JS engines.
-/
def daysFromCivil (y m d : Int) : Int :=
  let yy := if m ≤ 2 then y - 1 else y
  let era := yy.fdiv 400
  let yoe := yy - era * 400
  let mp := (m + 9).emod 12
  let doy := (153 * mp + 2).fdiv 5 + d - 1
  let doe := yoe * 365 + yoe.fdiv 4 - yoe.fdiv 100 + doy
  era * 146097 + doe - 719468

/--
The day index of `new Date(y, mIdx, d)` (arguments as JS passes them:
`mIdx` is the zero-based month).  Out-of-range months roll over into the
year; a year in `[0, 99]` is read as `1900 + y`, per the `Date`
constructor's two-digit-year rule.
-/
def jsMakeDay (y mIdx d : Int) : Int :=
  let yy := if 0 ≤ y ∧ y ≤ 99 then y + 1900 else y
  daysFromCivil (yy + mIdx.fdiv 12) (mIdx.emod 12 + 1) d

/-- Day index of a true calendar date read from the system clock
(no two-digit-year mapping applies to `new Date()` itself). -/
def civilDay (c : CalDate) : Int := daysFromCivil c.year c.month c.day

/-- JS `s.split('-')` on the underlying characters. -/
def splitDash : List Char → List (List Char)
  | [] => [[]]
  | c :: rest =>
    if c = '-' then [] :: splitDash rest
    else
      match splitDash rest with
      | p :: ps => (c :: p) :: ps
      | [] => [[c]]

/--
JS `Number(s)` on a dash-free fragment of a date string, as an
`Option Int` with `none` for `NaN`: the empty string is `0`, a non-empty
all-digit string is its decimal value, anything else in scope is `NaN`.
-/
def jsNumberOfChars (cs : List Char) : Option Int :=
  if cs = [] then some 0
  else if cs.all Char.isDigit then
    some (Int.ofNat (cs.foldl (fun n c => n * 10 + (c.toNat - 48)) 0))
  else none

/-- The destructuring `const [y, m, d] = s.split('-').map(Number)`:
the first three parts (missing parts are `undefined`, i.e. `NaN`,
modelled as `none`; surplus parts are discarded). -/
def parseYMD (s : String) : Option (Int × Int × Int) :=
  let parts := splitDash s.data
  match (parts.get? 0).bind jsNumberOfChars,
        (parts.get? 1).bind jsNumberOfChars,
        (parts.get? 2).bind jsNumberOfChars with
  | some y, some m, some d => some (y, m, d)
  | _, _, _ => none

/--
`new Date(y, m - 1, d) < today` for a due-date string: comparing two JS
dates compares their instants; both sides are local midnights, so the
comparison is the day-index comparison.  An invalid date (`NaN`
component) compares false.
-/
def dueBeforeToday (s : String) (today : CalDate) : Bool :=
  match parseYMD s with
  | some (y, m, d) => jsMakeDay y (m - 1) d < civilDay today
  | none => false

/-- JS truthiness of the optional `dueDate` field: absent, `null` and the
empty string are falsy. -/
def truthyDueDate (v : Option String) : Bool :=
  match v with
  | none => false
  | some s => !(s = "")

/--
`overdueIds` (`app.ts` lines 123–135): ids of the active todos with a
truthy `dueDate` that parses strictly before today's local calendar date.
`today` is the clock value after `setHours(0, 0, 0, 0)`.
-/
def overdueIds (today : CalDate) (todos : List ClientTodo) : List Int :=
  ((todos.filter (fun t => !t.completed && truthyDueDate t.dueDate)).filter
    (fun t =>
      match t.dueDate with
      | some s => dueBeforeToday s today
      | none => false)).map (fun t => t.id)

/-- A wall-clock reading: the local calendar date plus the time of day in
milliseconds.  `overdueIds` first zeroes the time-of-day component. -/
structure LocalClock where
  date : CalDate
  msOfDay : Nat
deriving DecidableEq

/-- `overdueIds` as a function of the full clock reading: `new Date()`
followed by `setHours(0, 0, 0, 0)` keeps only the calendar date. -/
def overdueIdsAt (clock : LocalClock) (todos : List ClientTodo) : List Int :=
  overdueIds clock.date todos

/-- JS truthiness of the optional `completedAt` field: absent, `null` and
the number `0` are falsy. -/
def truthyCompletedAt (v : Option Int) : Bool :=
  match v with
  | none => false
  | some n => !(n = 0)

/--
`archivedIds` (`app.ts` lines 137–144): ids of the completed todos with a
truthy `completedAt` strictly more than `ARCHIVE_THRESHOLD_MS` before
`now` (`Date.now()`, epoch milliseconds).
-/
def archivedIds (now : Int) (todos : List ClientTodo) : List Int :=
  (todos.filter (fun t =>
    t.completed && truthyCompletedAt t.completedAt &&
      (match t.completedAt with
       | some c => decide (now - c > ARCHIVE_THRESHOLD_MS)
       | none => false))).map (fun t => t.id)

/-- The filter body of `filteredTodos` (`app.ts` lines 155–162): drop
archived; drop completed unless `showCompleted`; then the status and
priority conditions. -/
def passesFilters (archived : List Int) (st : FilterState) (t : ClientTodo) : Bool :=
  if t.id ∈ archived then false
  else if !st.showCompleted && t.completed then false
  else
    let statusOk :=
      match st.filter with
      | .all => true
      | .active => !t.completed
      | .completed => t.completed
    let priorityOk :=
      match st.priorityFilter with
      | .anyPriority => true
      | .only p => decide (t.priority = p)
    statusOk && priorityOk

/-- The comparator of `filteredTodos` as a `≤` test: the JS comparator
returns `1` exactly when `a.completed && !b.completed`, so `a` may come
before `b` unless that holds. -/
def completedLE (a b : ClientTodo) : Bool := !a.completed || b.completed

/--
`filteredTodos` (`app.ts` lines 150–167): filter, then
`.sort((a, b) => a.completed !== b.completed ? (a.completed ? 1 : -1) : 0)`.
`Array.prototype.sort` is a stable sort (ES2019), modelled by `mergeSort`
with the comparator's `≤` relation.
-/
def filteredTodos (now : Int) (st : FilterState) (todos : List ClientTodo) : List ClientTodo :=
  let archived := archivedIds now todos
  (todos.filter (passesFilters archived st)).mergeSort completedLE

/--
The optimistic update of `toggleTodo` (`app.ts` lines 281–305): look up
the todo; build the payload from its current `completed` flag (`Date.now()`
when marking complete, `null` when unmarking); apply the payload to every
list entry with that id.
-/
def toggleTodo (list : List ClientTodo) (id : Int) (now : Int) : List ClientTodo :=
  match list.find? (fun t => t.id = id) with
  | none => list
  | some todo =>
    let pay : Bool × Option Int :=
      if todo.completed then (false, none) else (true, some now)
    list.map (fun t =>
      if t.id = id then { t with completed := pay.1, completedAt := pay.2 } else t)

/-- The reconciliation step of `addTodo` (`app.ts` line 272):
`this.todos.update(list => [todo, ...list])` — the server's returned
record is prepended to the cached list. -/
def clientAddTodo (created : ClientTodo) (list : List ClientTodo) : List ClientTodo :=
  created :: list

example : daysFromCivil 1970 1 1 = 0 := by decide
example : daysFromCivil 2000 3 1 = 11017 := by decide
example : jsMakeDay 2024 0 1 = daysFromCivil 2024 1 1 := by decide
example : jsMakeDay 2023 12 1 = daysFromCivil 2024 1 1 := by decide
example : jsMakeDay 50 0 1 = daysFromCivil 1950 1 1 := by decide
example : parseYMD "2024-05-06" = some (2024, 5, 6) := by decide
example : parseYMD "" = none := by decide
example : parseYMD "2024-05" = none := by decide
example : parseYMD "1-2-3-4" = some (1, 2, 3) := by decide

/-! ## Helper lemmas -/

theorem updateById_of_find? (id : Int) (body : List (String × Jval)) :
    ∀ (todos : List ServerTodo) (t : ServerTodo),
      todos.find? (fun u => u.id = id) = some t →
      ∃ l', updateById id body todos = some (l', applyUpdate t body)
  | [], t, h => by simp [List.find?] at h
  | u :: rest, t, h => by
    by_cases hu : u.id = id
    · have : t = u := by
        simp [List.find?, hu] at h
        exact h.symm
      subst this
      exact ⟨applyUpdate t body :: rest, by simp [updateById, hu]⟩
    · have h' : rest.find? (fun v => v.id = id) = some t := by
        simpa [List.find?, hu] using h
      obtain ⟨l', hl'⟩ := updateById_of_find? id body rest t h'
      exact ⟨u :: l', by simp [updateById, hu, hl']⟩

theorem applyUpdate_eq_self (body : List (String × Jval))
    (hnone : ∀ f ∈ ALLOWED_UPDATE_FIELDS, body.lookup f = none) (u : ServerTodo) :
    applyUpdate u body = u := by
  have ht := hnone "text" (by simp [ALLOWED_UPDATE_FIELDS])
  have hc := hnone "completed" (by simp [ALLOWED_UPDATE_FIELDS])
  have hca := hnone "completedAt" (by simp [ALLOWED_UPDATE_FIELDS])
  have hp := hnone "priority" (by simp [ALLOWED_UPDATE_FIELDS])
  have hd := hnone "dueDate" (by simp [ALLOWED_UPDATE_FIELDS])
  simp [applyUpdate, ht, hc, hca, hp, hd]

theorem updateById_congr (id : Int) (body₁ body₂ : List (String × Jval))
    (hagree : ∀ u : ServerTodo, applyUpdate u body₁ = applyUpdate u body₂) :
    ∀ todos : List ServerTodo, updateById id body₁ todos = updateById id body₂ todos
  | [] => rfl
  | u :: rest => by
    by_cases hu : u.id = id
    · simp [updateById, hu, hagree u]
    · simp [updateById, hu, updateById_congr id body₁ body₂ hagree rest]

theorem updateById_self (id : Int) (body : List (String × Jval))
    (hid : ∀ u : ServerTodo, applyUpdate u body = u) :
    ∀ (todos : List ServerTodo) (t : ServerTodo),
      todos.find? (fun u => u.id = id) = some t →
      updateById id body todos = some (todos, t)
  | [], t, h => by simp [List.find?] at h
  | u :: rest, t, h => by
    by_cases hu : u.id = id
    · have : t = u := by
        simp [List.find?, hu] at h
        exact h.symm
      subst this
      simp [updateById, hu, hid]
    · have h' : rest.find? (fun v => v.id = id) = some t := by
        simpa [List.find?, hu] using h
      simp [updateById, hu, updateById_self id body hid rest t h']

/-! ## Claim C10 — store reads are total -/

/--
**C10.** Every store read is total and never raises: for absent backing
data (`none`) and for content the JSON parser rejects, `readUsers` and
`readTodos` return the empty list, in both the local-file and the
Netlify-blob backends.
-/
theorem store_reads_total (parse : String → Option Jval) (raw : String)
    (hbad : parse raw = none) :
    readUsersLocal parse none = .arr .nil ∧
    readUsersLocal parse (some raw) = .arr .nil ∧
    readTodosLocal parse none = .arr .nil ∧
    readTodosLocal parse (some raw) = .arr .nil ∧
    readUsersNetlify parse none = .arr .nil ∧
    readUsersNetlify parse (some raw) = .arr .nil ∧
    readTodosNetlify parse none = .arr .nil ∧
    readTodosNetlify parse (some raw) = .arr .nil := by
  refine ⟨rfl, ?_, rfl, ?_, rfl, ?_, rfl, ?_⟩ <;>
    simp [readUsersLocal, readTodosLocal, readUsersNetlify, readTodosNetlify, hbad]

theorem store_reads_total_witness :
    readUsersLocal (fun _ => none) none = .arr .nil ∧
    readUsersLocal (fun _ => none) (some "not json") = .arr .nil ∧
    readTodosLocal (fun _ => none) none = .arr .nil ∧
    readTodosLocal (fun _ => none) (some "not json") = .arr .nil ∧
    readUsersNetlify (fun _ => none) none = .arr .nil ∧
    readUsersNetlify (fun _ => none) (some "not json") = .arr .nil ∧
    readTodosNetlify (fun _ => none) none = .arr .nil ∧
    readTodosNetlify (fun _ => none) (some "not json") = .arr .nil :=
  store_reads_total (fun _ => none) "not json" rfl

/-! ## Claim C8 — PUT does not type-check `completed` / `completedAt` -/

/--
**C8.** The PUT handler performs no type validation on `completed` and
`completedAt`: for any existing record and any body carrying those two
fields with arbitrary JSON values (and no other allow-listed field),
the handler succeeds and stores both values verbatim, leaving `id`,
`text`, `priority`, `dueDate` unchanged.
-/
theorem put_stores_completed_verbatim (todos : List ServerTodo) (id : Int)
    (body : List (String × Jval)) (v₁ v₂ : Jval) (t : ServerTodo)
    (htext : body.lookup "text" = none)
    (hpri : body.lookup "priority" = none)
    (hdue : body.lookup "dueDate" = none)
    (hc : body.lookup "completed" = some v₁)
    (hca : body.lookup "completedAt" = some v₂)
    (hfind : todos.find? (fun u => u.id = id) = some t) :
    ∃ l', putTodo todos id body = .ok (l', applyUpdate t body) ∧
      (applyUpdate t body).completed = v₁ ∧
      (applyUpdate t body).completedAt = v₂ ∧
      (applyUpdate t body).id = t.id ∧
      (applyUpdate t body).text = t.text ∧
      (applyUpdate t body).priority = t.priority ∧
      (applyUpdate t body).dueDate = t.dueDate := by
  obtain ⟨l', hl'⟩ := updateById_of_find? id body todos t hfind
  refine ⟨l', ?_, ?_, ?_, ?_, ?_, ?_, ?_⟩ <;>
    simp [putTodo, putTextError, putPriorityError, putDueDateError,
      applyUpdate, htext, hpri, hdue, hc, hca, hl']

theorem put_stores_completed_verbatim_witness :
    ∃ l', putTodo
        [{ id := 7, text := .str "a", completed := .bool false,
           priority := .str "low", dueDate := .null, completedAt := .null }] 7
        [("completed", .str "yes"), ("completedAt", .bool true)]
        = .ok (l', applyUpdate
            { id := 7, text := .str "a", completed := .bool false,
              priority := .str "low", dueDate := .null, completedAt := .null }
            [("completed", .str "yes"), ("completedAt", .bool true)]) ∧
      (applyUpdate
          { id := 7, text := .str "a", completed := .bool false,
            priority := .str "low", dueDate := .null, completedAt := .null }
          [("completed", .str "yes"), ("completedAt", .bool true)]).completed = .str "yes" ∧
      (applyUpdate
          { id := 7, text := .str "a", completed := .bool false,
            priority := .str "low", dueDate := .null, completedAt := .null }
          [("completed", .str "yes"), ("completedAt", .bool true)]).completedAt = .bool true ∧
      (applyUpdate
          { id := 7, text := .str "a", completed := .bool false,
            priority := .str "low", dueDate := .null, completedAt := .null }
          [("completed", .str "yes"), ("completedAt", .bool true)]).id = 7 ∧
      (applyUpdate
          { id := 7, text := .str "a", completed := .bool false,
            priority := .str "low", dueDate := .null, completedAt := .null }
          [("completed", .str "yes"), ("completedAt", .bool true)]).text = .str "a" ∧
      (applyUpdate
          { id := 7, text := .str "a", completed := .bool false,
            priority := .str "low", dueDate := .null, completedAt := .null }
          [("completed", .str "yes"), ("completedAt", .bool true)]).priority = .str "low" ∧
      (applyUpdate
          { id := 7, text := .str "a", completed := .bool false,
            priority := .str "low", dueDate := .null, completedAt := .null }
          [("completed", .str "yes"), ("completedAt", .bool true)]).dueDate = .null :=
  put_stores_completed_verbatim _ 7 _ (.str "yes") (.bool true) _
    (by decide) (by decide) (by decide) (by decide) (by decide) (by decide)

/-! ## Claim C3 — PUT allow-list and frame conditions -/

/--
**C3.** The PUT handler's frame conditions: (i) a body with none of the
allow-listed fields leaves the store and the record entirely unchanged;
(ii) the result depends only on the allow-listed fields of the body, so
unknown fields are ignored; (iii) the merged record always keeps `id`.
-/
theorem put_frame_conditions :
    (∀ (todos : List ServerTodo) (id : Int) (body : List (String × Jval)) (t : ServerTodo),
      (∀ f ∈ ALLOWED_UPDATE_FIELDS, body.lookup f = none) →
      todos.find? (fun u => u.id = id) = some t →
      putTodo todos id body = .ok (todos, t)) ∧
    (∀ (todos : List ServerTodo) (id : Int) (body₁ body₂ : List (String × Jval)),
      (∀ f ∈ ALLOWED_UPDATE_FIELDS, body₁.lookup f = body₂.lookup f) →
      putTodo todos id body₁ = putTodo todos id body₂) ∧
    (∀ (t : ServerTodo) (body : List (String × Jval)),
      (applyUpdate t body).id = t.id) := by
  refine ⟨?_, ?_, fun t body => rfl⟩
  · intro todos id body t hnone hfind
    have ht := hnone "text" (by simp [ALLOWED_UPDATE_FIELDS])
    have hp := hnone "priority" (by simp [ALLOWED_UPDATE_FIELDS])
    have hd := hnone "dueDate" (by simp [ALLOWED_UPDATE_FIELDS])
    have hupd := updateById_self id body (applyUpdate_eq_self body hnone) todos t hfind
    simp [putTodo, putTextError, putPriorityError, putDueDateError, ht, hp, hd, hupd]
  · intro todos id body₁ body₂ hagree
    have ht := hagree "text" (by simp [ALLOWED_UPDATE_FIELDS])
    have hc := hagree "completed" (by simp [ALLOWED_UPDATE_FIELDS])
    have hca := hagree "completedAt" (by simp [ALLOWED_UPDATE_FIELDS])
    have hp := hagree "priority" (by simp [ALLOWED_UPDATE_FIELDS])
    have hd := hagree "dueDate" (by simp [ALLOWED_UPDATE_FIELDS])
    have happly : ∀ u : ServerTodo, applyUpdate u body₁ = applyUpdate u body₂ := by
      intro u; simp [applyUpdate, ht, hc, hca, hp, hd]
    simp [putTodo, putTextError, putPriorityError, putDueDateError, ht, hp, hd,
      updateById_congr id body₁ body₂ happly todos]

theorem put_frame_conditions_witness :
    putTodo
      [{ id := 3, text := .str "x", completed := .bool false,
         priority := .str "medium", dueDate := .null, completedAt := .null }] 3
      [("bogusField", .num 42)]
      = .ok ([{ id := 3, text := .str "x", completed := .bool false,
                priority := .str "medium", dueDate := .null, completedAt := .null }],
             { id := 3, text := .str "x", completed := .bool false,
               priority := .str "medium", dueDate := .null, completedAt := .null }) :=
  put_frame_conditions.1 _ 3 [("bogusField", .num 42)] _ (by decide) (by decide)

/-! ## Helper lemmas for the client toggle -/

theorem mem_toggleMap (id : Int) (pay : Bool × Option Int) (l : List ClientTodo) :
    ∀ u ∈ l.map (fun v =>
        if v.id = id then { v with completed := pay.1, completedAt := pay.2 } else v),
      u.id = id → u.completed = pay.1 ∧ u.completedAt = pay.2 := by
  intro u hu hid
  obtain ⟨v, hv, rfl⟩ := List.mem_map.mp hu
  by_cases hvid : v.id = id
  · simp [hvid]
  · rw [if_neg hvid] at hid
    exact absurd hid hvid

theorem find?_toggleMap (id : Int) (pay : Bool × Option Int) :
    ∀ (l : List ClientTodo) (t : ClientTodo),
      l.find? (fun u => u.id = id) = some t →
      (l.map (fun v =>
          if v.id = id then { v with completed := pay.1, completedAt := pay.2 } else v)).find?
          (fun u => u.id = id) =
        some { t with completed := pay.1, completedAt := pay.2 }
  | [], t, h => by simp [List.find?] at h
  | v :: rest, t, h => by
    by_cases hv : v.id = id
    · rw [List.find?_cons_of_pos _ (by simp [hv])] at h
      cases h
      simp [List.find?, hv]
    · have h' : rest.find? (fun u => u.id = id) = some t := by
        rw [List.find?_cons_of_neg _ (by simp [hv])] at h
        exact h
      simpa [List.find?, hv] using find?_toggleMap id pay rest t h'

theorem toggleTodo_mark (l : List ClientTodo) (id now : Int) (t : ClientTodo)
    (hfind : l.find? (fun u => u.id = id) = some t) (hc : t.completed = false) :
    toggleTodo l id now = l.map (fun v =>
      if v.id = id then { v with completed := true, completedAt := some now } else v) := by
  simp [toggleTodo, hfind, hc]

theorem toggleTodo_unmark (l : List ClientTodo) (id now : Int) (t : ClientTodo)
    (hfind : l.find? (fun u => u.id = id) = some t) (hc : t.completed = true) :
    toggleTodo l id now = l.map (fun v =>
      if v.id = id then { v with completed := false, completedAt := none } else v) := by
  simp [toggleTodo, hfind, hc]

/-! ## Claim C4 — toggle semantics and round-trip -/

/--
**C4.** Toggling a todo found incomplete marks every entry with its id
`completed = true, completedAt = now` (a fresh timestamp); toggling a todo
found complete marks them `completed = false, completedAt = null`; and for
a todo starting at `completed = false, completedAt = null`, toggling twice
restores `completed = false, completedAt = null`.
-/
theorem toggle_roundtrip :
    (∀ (list : List ClientTodo) (id now : Int) (t : ClientTodo),
      list.find? (fun u => u.id = id) = some t → t.completed = false →
      ∀ u ∈ toggleTodo list id now, u.id = id →
        u.completed = true ∧ u.completedAt = some now) ∧
    (∀ (list : List ClientTodo) (id now : Int) (t : ClientTodo),
      list.find? (fun u => u.id = id) = some t → t.completed = true →
      ∀ u ∈ toggleTodo list id now, u.id = id →
        u.completed = false ∧ u.completedAt = none) ∧
    (∀ (list : List ClientTodo) (id now₁ now₂ : Int) (t : ClientTodo),
      list.find? (fun u => u.id = id) = some t →
      t.completed = false → t.completedAt = none →
      ∀ u ∈ toggleTodo (toggleTodo list id now₁) id now₂, u.id = id →
        u.completed = false ∧ u.completedAt = none) := by
  refine ⟨?_, ?_, ?_⟩
  · intro list id now t hfind hc
    rw [toggleTodo_mark list id now t hfind hc]
    exact mem_toggleMap id (true, some now) list
  · intro list id now t hfind hc
    rw [toggleTodo_unmark list id now t hfind hc]
    exact mem_toggleMap id (false, none) list
  · intro list id now₁ now₂ t hfind hc hca
    have hfind₂ : (toggleTodo list id now₁).find? (fun u => u.id = id) =
        some { t with completed := true, completedAt := some now₁ } := by
      rw [toggleTodo_mark list id now₁ t hfind hc]
      exact find?_toggleMap id (true, some now₁) list t hfind
    rw [toggleTodo_unmark (toggleTodo list id now₁) id now₂ _ hfind₂ rfl]
    exact mem_toggleMap id (false, none) (toggleTodo list id now₁)

theorem toggle_roundtrip_witness :
    (∀ u ∈ toggleTodo (toggleTodo
        [{ id := 5, text := "a", completed := false, priority := .medium,
           dueDate := none, completedAt := none }] 5 1111) 5 2222,
      u.id = 5 → u.completed = false ∧ u.completedAt = none) :=
  toggle_roundtrip.2.2
    [{ id := 5, text := "a", completed := false, priority := .medium,
       dueDate := none, completedAt := none }] 5 1111 2222
    { id := 5, text := "a", completed := false, priority := .medium,
      dueDate := none, completedAt := none }
    (by decide) rfl rfl

/-! ## Claim C9 — client prepends, server appends -/

theorem createTodo_ok_shape (todos : List ServerTodo) (now : Int)
    (text priority dueDate : Jval) (newStore : List ServerTodo) (rec : ServerTodo)
    (h : createTodo todos now text priority dueDate = .ok (newStore, rec)) :
    newStore = todos ++ [rec] ∧ rec.id = now := by
  rcases text with _ | b | n | s | xs | kvs <;>
    simp only [createTodo] at h <;>
    try exact Except.noConfusion h
  split at h
  · exact Except.noConfusion h
  · split at h
    · exact Except.noConfusion h
    · split at h
      · exact Except.noConfusion h
      · split at h
        · exact Except.noConfusion h
        · simp only [Except.ok.injEq, Prod.mk.injEq] at h
          obtain ⟨h₁, h₂⟩ := h
          subst h₂
          exact ⟨h₁.symm, rfl⟩

/--
**C9.** After a successful create, the client prepends the returned record
to its cache while the server appended it to the stored list; hence when
the cache mirrored a non-empty store, the client's id order diverges from
the server's stored id order.
-/
theorem add_order_divergence (todos : List ServerTodo) (now : Int)
    (text priority dueDate : Jval) (newStore : List ServerTodo) (rec : ServerTodo)
    (hcreate : createTodo todos now text priority dueDate = .ok (newStore, rec))
    (cache : List ClientTodo) (created : ClientTodo)
    (hsync : cache.map (fun t => t.id) = todos.map (fun t => t.id))
    (hcid : created.id = rec.id)
    (hne : todos ≠ [])
    (hfresh : now ∉ todos.map (fun t => t.id)) :
    (clientAddTodo created cache).map (fun t => t.id) ≠ newStore.map (fun t => t.id) := by
  obtain ⟨hstore, hrecid⟩ := createTodo_ok_shape todos now text priority dueDate newStore rec hcreate
  subst hstore
  intro hEq
  simp [clientAddTodo, hcid, hrecid, hsync] at hEq
  rcases hmap : todos.map (fun t => t.id) with _ | ⟨i, rest⟩
  · exact hne (List.map_eq_nil_iff.mp hmap)
  · rw [hmap] at hEq
    simp at hEq
    have : now = i := hEq.1
    apply hfresh
    rw [hmap, this]
    exact List.mem_cons_self i rest

/-! ## Claim C6 — archived set -/

/--
**C6 (amended).** The archived set contains exactly the completed todos
with a truthy (non-null **and non-zero**) `completedAt` such that
`now - completedAt` strictly exceeds `ARCHIVE_THRESHOLD_MS` (5 days);
the boundary behaviour holds: `completedAt = now - 5d - 1ms` (non-zero)
is archived, `completedAt = now - 5d + 1ms` is not.
-/
theorem archived_characterization :
    (∀ (now : Int) (todos : List ClientTodo) (i : Int),
      i ∈ archivedIds now todos ↔
        ∃ t ∈ todos, t.id = i ∧ t.completed = true ∧
          ∃ c, t.completedAt = some c ∧ c ≠ 0 ∧ now - c > ARCHIVE_THRESHOLD_MS) ∧
    (∀ (now : Int) (t : ClientTodo) (c : Int),
      t.completed = true → t.completedAt = some c →
      c = now - ARCHIVE_THRESHOLD_MS - 1 → c ≠ 0 →
      t.id ∈ archivedIds now [t]) ∧
    (∀ (now : Int) (t : ClientTodo) (c : Int),
      t.completed = true → t.completedAt = some c →
      c = now - ARCHIVE_THRESHOLD_MS + 1 →
      t.id ∉ archivedIds now [t]) := by
  have hmem : ∀ (now : Int) (todos : List ClientTodo) (i : Int),
      i ∈ archivedIds now todos ↔
        ∃ t ∈ todos, t.id = i ∧ t.completed = true ∧
          ∃ c, t.completedAt = some c ∧ c ≠ 0 ∧ now - c > ARCHIVE_THRESHOLD_MS := by
    intro now todos i
    simp only [archivedIds, List.mem_map, List.mem_filter]
    constructor
    · rintro ⟨t, ⟨ht, hp⟩, rfl⟩
      cases hca : t.completedAt with
      | none => rw [hca] at hp; simp [truthyCompletedAt] at hp
      | some c =>
        rw [hca] at hp
        simp only [truthyCompletedAt, Bool.and_eq_true, decide_eq_true_eq] at hp
        obtain ⟨⟨hcomp, hnz⟩, hgt⟩ := hp
        exact ⟨t, ht, rfl, hcomp, c, hca, by simpa using hnz, hgt⟩
    · rintro ⟨t, ht, rfl, hcomp, c, hca, hnz, hgt⟩
      refine ⟨t, ⟨ht, ?_⟩, rfl⟩
      simp [truthyCompletedAt, hca, hcomp, hnz, hgt]
  refine ⟨hmem, ?_, ?_⟩
  · intro now t c hcomp hca hc hnz
    rw [hmem]
    exact ⟨t, by simp, rfl, hcomp, c, hca, hnz, by omega⟩
  · intro now t c hcomp hca hc hmemc
    rw [hmem] at hmemc
    obtain ⟨t', ht', _, _, c', hca', _, hgt'⟩ := hmemc
    simp only [List.mem_singleton] at ht'
    subst ht'
    rw [hca] at hca'
    cases hca'
    omega

theorem archived_characterization_witness :
    (100 : Int) ∈ archivedIds 1000000000000
      [{ id := 100, text := "t", completed := true, priority := .low,
         dueDate := none, completedAt := some (1000000000000 - ARCHIVE_THRESHOLD_MS - 1) }] :=
  archived_characterization.2.1 1000000000000
    { id := 100, text := "t", completed := true, priority := .low,
      dueDate := none, completedAt := some (1000000000000 - ARCHIVE_THRESHOLD_MS - 1) }
    (1000000000000 - ARCHIVE_THRESHOLD_MS - 1) rfl rfl rfl (by decide)

/--
Counterexample to C6 as stated: a completed todo with the non-null
`completedAt = 0` (the epoch) satisfies "now − completedAt exceeds five
days" at `now = 10^12`, yet is not archived, because the code tests JS
truthiness of `completedAt` (`!!t.completedAt`) and `0` is falsy.
-/
theorem archived_claim_counterexample :
    (1 : Int) ∉ archivedIds 1000000000000
      [{ id := 1, text := "z", completed := true, priority := .low,
         dueDate := none, completedAt := some 0 }] ∧
    (1000000000000 : Int) - 0 > ARCHIVE_THRESHOLD_MS := by
  constructor
  · decide
  · decide

/-! ## Claim C5 — overdue set -/

theorem jsMakeDay_today (c : CalDate) (h100 : 100 ≤ c.year)
    (hm1 : 1 ≤ c.month) (hm12 : c.month ≤ 12) :
    jsMakeDay c.year (c.month - 1) c.day = civilDay c := by
  have hy : ¬(0 ≤ c.year ∧ c.year ≤ 99) := by omega
  have hfd : (c.month - 1).fdiv 12 = 0 := by
    rw [Int.fdiv_eq_ediv _ (by omega)]
    exact Int.ediv_eq_zero_of_lt (by omega) (by omega)
  have hem : (c.month - 1).emod 12 = c.month - 1 :=
    Int.emod_eq_of_lt (by omega) (by omega)
  simp only [jsMakeDay, hy, if_false, hfd, hem, Int.add_zero, civilDay]
  congr 1
  omega

theorem dueBeforeToday_empty (today : CalDate) : dueBeforeToday "" today = false := rfl

/--
**C5.** For a real clock date (`today` in range, year ≥ 100):
the overdue computation ignores the time of day; its result contains
exactly the ids of incomplete todos carrying a due-date string that parses
strictly before today's calendar day; and a todo whose due date parses to
today's calendar date is never overdue (given unique ids).
-/
theorem overdue_characterization (today : CalDate) (todos : List ClientTodo)
    (h100 : 100 ≤ today.year) (hm1 : 1 ≤ today.month) (hm12 : today.month ≤ 12) :
    (∀ ms₁ ms₂ : Nat,
      overdueIdsAt ⟨today, ms₁⟩ todos = overdueIdsAt ⟨today, ms₂⟩ todos) ∧
    (∀ i : Int, i ∈ overdueIds today todos ↔
      ∃ t ∈ todos, t.id = i ∧ t.completed = false ∧
        ∃ s, t.dueDate = some s ∧ dueBeforeToday s today = true) ∧
    ((todos.map (fun t => t.id)).Nodup →
      ∀ t ∈ todos, ∀ s, t.dueDate = some s →
        parseYMD s = some (today.year, today.month, today.day) →
        t.id ∉ overdueIds today todos) := by
  have hmem : ∀ i : Int, i ∈ overdueIds today todos ↔
      ∃ t ∈ todos, t.id = i ∧ t.completed = false ∧
        ∃ s, t.dueDate = some s ∧ dueBeforeToday s today = true := by
    intro i
    simp only [overdueIds, List.mem_map, List.mem_filter]
    constructor
    · rintro ⟨t, ⟨⟨ht, hp⟩, hq⟩, rfl⟩
      cases hdd : t.dueDate with
      | none => rw [hdd] at hp; simp [truthyDueDate] at hp
      | some s =>
        rw [hdd] at hp hq
        simp only [truthyDueDate, Bool.and_eq_true, Bool.not_eq_true'] at hp
        exact ⟨t, ht, rfl, hp.1, s, hdd, hq⟩
    · rintro ⟨t, ht, rfl, hcomp, s, hdd, hlt⟩
      have hs : ¬(s = "") := by
        intro he
        rw [he, dueBeforeToday_empty] at hlt
        cases hlt
      refine ⟨t, ⟨⟨ht, ?_⟩, ?_⟩, rfl⟩
      · simp [truthyDueDate, hdd, hcomp, hs]
      · rw [hdd]
        exact hlt
  refine ⟨fun ms₁ ms₂ => rfl, hmem, ?_⟩
  intro hnd t ht s hdd hparse hin
  rw [hmem] at hin
  obtain ⟨t', ht', hid, _, s', hdd', hlt'⟩ := hin
  have htt : t' = t := by
    by_contra hne
    have := List.inj_on_of_nodup_map hnd ht' ht hid
    exact hne this
  subst htt
  rw [hdd] at hdd'
  cases hdd'
  unfold dueBeforeToday at hlt'
  rw [hparse] at hlt'
  simp only [decide_eq_true_eq] at hlt'
  rw [jsMakeDay_today today h100 hm1 hm12] at hlt'
  exact absurd hlt' (lt_irrefl _)

theorem overdue_characterization_witness :
    (5 : Int) ∈ overdueIds ⟨2025, 10, 11⟩
      [{ id := 5, text := "w", completed := false, priority := .high,
         dueDate := some "2025-10-10", completedAt := none }] :=
  ((overdue_characterization ⟨2025, 10, 11⟩
      [{ id := 5, text := "w", completed := false, priority := .high,
         dueDate := some "2025-10-10", completedAt := none }]
      (by decide) (by decide) (by decide)).2.1 5).mpr
    ⟨{ id := 5, text := "w", completed := false, priority := .high,
       dueDate := some "2025-10-10", completedAt := none },
      List.mem_singleton.mpr rfl, rfl, rfl, "2025-10-10", rfl, by decide⟩

theorem add_order_divergence_witness :
    (clientAddTodo
        { id := 2, text := "b", completed := false, priority := .medium,
          dueDate := none, completedAt := none }
        [{ id := 1, text := "a", completed := false, priority := .medium,
           dueDate := none, completedAt := none }]).map (fun t => t.id) ≠
      ([{ id := 1, text := .str "a", completed := .bool false, priority := .str "medium",
          dueDate := .null, completedAt := .null },
        { id := 2, text := .str "b", completed := .bool false, priority := .str "medium",
          dueDate := .null, completedAt := .null }] : List ServerTodo).map (fun t => t.id) :=
  add_order_divergence
    [{ id := 1, text := .str "a", completed := .bool false, priority := .str "medium",
       dueDate := .null, completedAt := .null }]
    2 (.str "b") (.str "medium") .null
    [{ id := 1, text := .str "a", completed := .bool false, priority := .str "medium",
       dueDate := .null, completedAt := .null },
     { id := 2, text := .str "b", completed := .bool false, priority := .str "medium",
       dueDate := .null, completedAt := .null }]
    { id := 2, text := .str "b", completed := .bool false, priority := .str "medium",
      dueDate := .null, completedAt := .null }
    (by decide)
    [{ id := 1, text := "a", completed := false, priority := .medium,
       dueDate := none, completedAt := none }]
    { id := 2, text := "b", completed := false, priority := .medium,
      dueDate := none, completedAt := none }
    (by decide) rfl (by decide) (by decide)

/-! ## Claim C1 — reorder -/

theorem filter_id_eq_nil (todos : List ServerTodo) (i : Int)
    (h : i ∉ todos.map (fun t => t.id)) :
    todos.filter (fun t => t.id = i) = [] := by
  rw [List.filter_eq_nil_iff]
  intro t ht
  simp only [decide_eq_true_eq]
  intro he
  exact h (he ▸ List.mem_map_of_mem (fun t => t.id) ht)

theorem lookupById_of_nodup :
    ∀ (todos : List ServerTodo), (todos.map (fun t => t.id)).Nodup →
      ∀ t ∈ todos, lookupById todos t.id = some t
  | [], _, t, ht => absurd ht (List.not_mem_nil t)
  | u :: rest, hnd, t, ht => by
    have hnd' : (rest.map (fun t => t.id)).Nodup := (List.nodup_cons.mp hnd).2
    have hu : u.id ∉ rest.map (fun t => t.id) := (List.nodup_cons.mp hnd).1
    rcases List.mem_cons.mp ht with rfl | hrest
    · have : rest.filter (fun v => v.id = t.id) = [] := filter_id_eq_nil rest t.id hu
      simp [lookupById, List.filter_cons, this]
    · have hne : ¬(u.id = t.id) := by
        intro he
        exact hu (he ▸ List.mem_map_of_mem (fun t => t.id) hrest)
      have ih := lookupById_of_nodup rest hnd' t hrest
      simp only [lookupById] at ih ⊢
      rw [List.filter_cons]
      simp [hne, ih]

theorem filterMap_of_forall_some {α : Type} (f : α → Option α) :
    ∀ l : List α, (∀ x ∈ l, f x = some x) → l.filterMap f = l
  | [], _ => rfl
  | x :: xs, h => by
    rw [List.filterMap_cons, h x (List.mem_cons_self x xs),
      filterMap_of_forall_some f xs (fun y hy => h y (List.mem_cons_of_mem x hy))]

theorem filterMap_map_eq {α β : Type} (f : β → Option α) (g : α → β) :
    ∀ l : List β, (∀ i ∈ l, ∃ t, f i = some t ∧ g t = i) →
      ((l.filterMap f).map g = l ∧ (l.filterMap f).length = l.length)
  | [], _ => ⟨rfl, rfl⟩
  | i :: is, h => by
    obtain ⟨t, hf, hg⟩ := h i (List.mem_cons_self i is)
    obtain ⟨ih₁, ih₂⟩ :=
      filterMap_map_eq f g is (fun j hj => h j (List.mem_cons_of_mem i hj))
    rw [List.filterMap_cons, hf]
    simp [hg, ih₁, ih₂]

theorem length_filterMap_eq_countP {α β : Type} (f : α → Option β) :
    ∀ l : List α, (l.filterMap f).length = l.countP (fun a => (f a).isSome)
  | [] => rfl
  | x :: xs => by
    rw [List.filterMap_cons, List.countP_cons]
    cases hx : f x <;>
      simp [hx, length_filterMap_eq_countP f xs]

/--
**C1 (amended).** The reorder handler rejects (ValidationError, store
untouched) exactly when the number of supplied ids that hit the stored id
map differs from the stored length: on a count mismatch it returns the
validation error, and whenever the counts agree — including supplied
sequences that repeat a stored id or pad with unknown ids — it accepts
and overwrites the store with the looked-up todos in the supplied order
(a repeated stored id duplicates its todo, unknown ids are dropped).
When the stored ids are pairwise distinct and the supplied sequence is a
permutation of them, this is exactly the claimed behaviour: the store
becomes the stored todos reordered as given.
-/
theorem reorder_amended :
    (∀ (todos : List ServerTodo) (ids : List Int),
      ids.countP (fun i => (lookupById todos i).isSome) ≠ todos.length →
      reorderTodos todos ids = .error "ids do not match stored todos") ∧
    (∀ (todos : List ServerTodo) (ids : List Int),
      ids.countP (fun i => (lookupById todos i).isSome) = todos.length →
      reorderTodos todos ids = .ok (ids.filterMap (lookupById todos))) ∧
    (∀ (todos : List ServerTodo) (ids : List Int),
      (todos.map (fun t => t.id)).Nodup →
      ids.Perm (todos.map (fun t => t.id)) →
      ∃ r, reorderTodos todos ids = .ok r ∧
        r.map (fun t => t.id) = ids ∧ r.Perm todos) := by
  refine ⟨?_, ?_, ?_⟩
  · intro todos ids hne
    rw [← length_filterMap_eq_countP (lookupById todos) ids] at hne
    simp [reorderTodos, hne]
  · intro todos ids heq
    rw [← length_filterMap_eq_countP (lookupById todos) ids] at heq
    simp [reorderTodos, heq]
  · intro todos ids hnd hperm
    have hall : ∀ i ∈ ids, ∃ t, lookupById todos i = some t ∧ t.id = i := by
      intro i hi
      have : i ∈ todos.map (fun t => t.id) := hperm.mem_iff.mp hi
      obtain ⟨t, ht, rfl⟩ := List.mem_map.mp this
      exact ⟨t, lookupById_of_nodup todos hnd t ht, rfl⟩
    obtain ⟨hmap, _⟩ := filterMap_map_eq (lookupById todos) (fun t => t.id) ids hall
    have hself : (todos.map (fun t => t.id)).filterMap (lookupById todos) = todos := by
      rw [List.filterMap_map]
      exact filterMap_of_forall_some _ todos (fun t ht => lookupById_of_nodup todos hnd t ht)
    have hpermr : (ids.filterMap (lookupById todos)).Perm todos := by
      have hstep := hperm.filterMap (lookupById todos)
      rw [hself] at hstep
      exact hstep
    have hlen : (ids.filterMap (lookupById todos)).length = todos.length :=
      hpermr.length_eq
    exact ⟨ids.filterMap (lookupById todos), by simp [reorderTodos, hlen], hmap, hpermr⟩

theorem reorder_amended_witness :
    reorderTodos
        [{ id := 1, text := .str "a", completed := .bool false, priority := .str "medium",
           dueDate := .null, completedAt := .null },
         { id := 2, text := .str "b", completed := .bool false, priority := .str "medium",
           dueDate := .null, completedAt := .null }] [2, 2] =
      .ok [{ id := 2, text := .str "b", completed := .bool false, priority := .str "medium",
             dueDate := .null, completedAt := .null },
           { id := 2, text := .str "b", completed := .bool false, priority := .str "medium",
             dueDate := .null, completedAt := .null }] ∧
    ∃ r, reorderTodos
        [{ id := 1, text := .str "a", completed := .bool false, priority := .str "medium",
           dueDate := .null, completedAt := .null },
         { id := 2, text := .str "b", completed := .bool false, priority := .str "medium",
           dueDate := .null, completedAt := .null }] [2, 1] = .ok r ∧
      r.map (fun t => t.id) = [2, 1] ∧
      r.Perm
        [{ id := 1, text := .str "a", completed := .bool false, priority := .str "medium",
           dueDate := .null, completedAt := .null },
         { id := 2, text := .str "b", completed := .bool false, priority := .str "medium",
           dueDate := .null, completedAt := .null }] := by
  constructor
  · rw [reorder_amended.2.1
      [{ id := 1, text := .str "a", completed := .bool false, priority := .str "medium",
         dueDate := .null, completedAt := .null },
       { id := 2, text := .str "b", completed := .bool false, priority := .str "medium",
         dueDate := .null, completedAt := .null }]
      [2, 2] (by decide)]
    decide
  · exact reorder_amended.2.2
      [{ id := 1, text := .str "a", completed := .bool false, priority := .str "medium",
         dueDate := .null, completedAt := .null },
       { id := 2, text := .str "b", completed := .bool false, priority := .str "medium",
         dueDate := .null, completedAt := .null }]
      [2, 1] (by decide) (by decide)

/--
Counterexample to C1 as stated: against the stored list with ids `[1, 2]`,
the supplied sequence `[1, 1]` is not a permutation of the stored id
multiset, yet the handler accepts it (HTTP 200) and overwrites the store
with the id-1 todo twice, losing the id-2 todo.
-/
theorem reorder_claim_counterexample :
    reorderTodos
        [{ id := 1, text := .str "a", completed := .bool false, priority := .str "medium",
           dueDate := .null, completedAt := .null },
         { id := 2, text := .str "b", completed := .bool false, priority := .str "medium",
           dueDate := .null, completedAt := .null }] [1, 1] =
      .ok [{ id := 1, text := .str "a", completed := .bool false, priority := .str "medium",
             dueDate := .null, completedAt := .null },
           { id := 1, text := .str "a", completed := .bool false, priority := .str "medium",
             dueDate := .null, completedAt := .null }] ∧
    ¬ ([1, 1] : List Int).Perm
        (([{ id := 1, text := .str "a", completed := .bool false, priority := .str "medium",
             dueDate := .null, completedAt := .null },
           { id := 2, text := .str "b", completed := .bool false, priority := .str "medium",
             dueDate := .null, completedAt := .null }] : List ServerTodo).map (fun t => t.id)) := by
  constructor
  · decide
  · decide

/-! ## Claim C2 — create: fresh ids, order, append -/

/-- A create request that passes the POST handler's validation. -/
def validCreateReq (r : CreateReq) : Bool :=
  match r.text with
  | .str s =>
    !(jsTrim s = "") && jsLength (jsTrim s) ≤ 500 &&
      validPriority r.priority && validDueDate r.dueDate
  | _ => false

/-- The record a valid create request produces (id is the handler's
`Date.now()` reading). -/
def createdRecord (r : CreateReq) : ServerTodo :=
  match r.text with
  | .str s =>
    { id := r.now, text := .str (jsTrim s), completed := .bool false,
      priority := r.priority, dueDate := r.dueDate, completedAt := .null }
  | _ =>
    { id := r.now, text := .null, completed := .bool false,
      priority := r.priority, dueDate := r.dueDate, completedAt := .null }

theorem createdRecord_id (r : CreateReq) : (createdRecord r).id = r.now := by
  rcases r with ⟨now, text, priority, dueDate⟩
  cases text <;> rfl

theorem createTodo_of_valid (todos : List ServerTodo) (r : CreateReq)
    (hv : validCreateReq r = true) :
    createTodo todos r.now r.text r.priority r.dueDate =
      .ok (todos ++ [createdRecord r], createdRecord r) := by
  rcases r with ⟨now, text, priority, dueDate⟩
  rcases text with _ | b | n | s | xs | kvs <;>
    simp only [validCreateReq, Bool.and_eq_true, Bool.not_eq_true',
      decide_eq_true_eq] at hv <;>
    try exact Bool.noConfusion hv
  obtain ⟨⟨⟨h1, h2⟩, h3⟩, h4⟩ := hv
  have h1' : ¬(jsTrim s = "") := of_decide_eq_false h1
  have h2' : ¬(jsLength (jsTrim s) > 500) := by omega
  simp [createTodo, createdRecord, h1', h2', h3, h4]

theorem createMany_ok :
    ∀ (init : List ServerTodo) (reqs : List CreateReq),
      (∀ r ∈ reqs, validCreateReq r = true) →
      ∃ final recs, createMany init reqs = some (final, recs) ∧
        final = init ++ recs ∧
        recs.map (fun t => t.id) = reqs.map (fun r => r.now)
  | init, [], _ => ⟨init, [], rfl, by simp, rfl⟩
  | init, r :: rs, hv => by
    have hcr := createTodo_of_valid init r (hv r (List.mem_cons_self r rs))
    obtain ⟨final, recs, h1, h2, h3⟩ :=
      createMany_ok (init ++ [createdRecord r]) rs
        (fun x hx => hv x (List.mem_cons_of_mem r hx))
    refine ⟨final, createdRecord r :: recs, ?_, ?_, ?_⟩
    · simp only [createMany, hcr, h1]
    · rw [h2]; simp
    · simp [h3, createdRecord_id]

/--
**C2 (amended).** For a sequence of valid create requests whose clock
readings strictly increase and exceed every id already stored (true in
normal operation: stored ids are earlier `Date.now()` values and requests
land in distinct milliseconds), every created record is appended to the
end of the list, the returned ids are exactly the clock readings — hence
strictly increasing in creation order — and each is distinct from all
pre-existing ids.  (Without the clock hypotheses the claim fails: two
creates in the same millisecond receive identical ids, see the
counterexample.)
-/
theorem create_sequence (init : List ServerTodo) (reqs : List CreateReq)
    (hv : ∀ r ∈ reqs, validCreateReq r = true)
    (hmono : (reqs.map (fun r => r.now)).Pairwise (· < ·))
    (hfresh : ∀ t ∈ init, ∀ r ∈ reqs, t.id < r.now) :
    ∃ final recs, createMany init reqs = some (final, recs) ∧
      final = init ++ recs ∧
      recs.map (fun t => t.id) = reqs.map (fun r => r.now) ∧
      (recs.map (fun t => t.id)).Pairwise (· < ·) ∧
      ∀ u ∈ recs, u.id ∉ init.map (fun t => t.id) := by
  obtain ⟨final, recs, h1, h2, h3⟩ := createMany_ok init reqs hv
  refine ⟨final, recs, h1, h2, h3, by rw [h3]; exact hmono, ?_⟩
  intro u hu hmem
  obtain ⟨t, ht, hid⟩ := List.mem_map.mp hmem
  have hin : u.id ∈ recs.map (fun t => t.id) := List.mem_map_of_mem _ hu
  rw [h3] at hin
  obtain ⟨r, hr, hrnow⟩ := List.mem_map.mp hin
  have := hfresh t ht r hr
  omega

theorem create_sequence_witness :
    ∃ final recs, createMany
        [{ id := 50, text := .str "old", completed := .bool false,
           priority := .str "medium", dueDate := .null, completedAt := .null }]
        [{ now := 100, text := .str "a", priority := .str "low", dueDate := .null },
         { now := 200, text := .str "b", priority := .str "high", dueDate := .null }]
        = some (final, recs) ∧
      final =
        [{ id := 50, text := .str "old", completed := .bool false,
           priority := .str "medium", dueDate := .null, completedAt := .null }] ++ recs ∧
      recs.map (fun t => t.id) = [100, 200] ∧
      (recs.map (fun t => t.id)).Pairwise (· < ·) ∧
      ∀ u ∈ recs, u.id ∉
        ([{ id := 50, text := .str "old", completed := .bool false,
            priority := .str "medium", dueDate := .null, completedAt := .null }] :
          List ServerTodo).map (fun t => t.id) :=
  create_sequence
    [{ id := 50, text := .str "old", completed := .bool false,
       priority := .str "medium", dueDate := .null, completedAt := .null }]
    [{ now := 100, text := .str "a", priority := .str "low", dueDate := .null },
     { now := 200, text := .str "b", priority := .str "high", dueDate := .null }]
    (by decide) (by decide) (by decide)

/--
Counterexample to C2 as stated: two valid create requests served within
the same millisecond (`Date.now()` returns 100 both times) both receive
id 100 — the returned ids are neither unique nor strictly increasing.
-/
theorem create_claim_counterexample :
    (createMany []
        [{ now := 100, text := .str "a", priority := .str "medium", dueDate := .null },
         { now := 100, text := .str "b", priority := .str "medium", dueDate := .null }]).map
        (fun p => p.2.map (fun t => t.id)) = some [100, 100] ∧
    ¬ ([100, 100] : List Int).Nodup ∧
    ¬ ([100, 100] : List Int).Pairwise (· < ·) := by
  refine ⟨by decide, by decide, by decide⟩

/-! ## Claim C7 — filtered list -/

/--
A stable sort under a comparator that only orders `p`-elements before
non-`p`-elements is exactly the partition: the `p`-elements in order,
then the rest in order.
-/
theorem mergeSort_two_valued {α : Type} (p : α → Bool) (le : α → α → Bool)
    (hle : ∀ a b, le a b = (p a || !(p b))) :
    ∀ l : List α, l.mergeSort le = l.filter p ++ l.filter (fun a => !(p a))
  | [] => by simp
  | a :: l => by
    have trans : ∀ x y z : α, le x y → le y z → le x z := by
      intro x y z hxy hyz
      rw [hle] at hxy hyz ⊢
      rcases hpx : p x <;> rcases hpy : p y <;> rcases hpz : p z <;> simp_all
    have total : ∀ x y : α, le x y || le y x := by
      intro x y
      rw [hle, hle]
      rcases hpx : p x <;> rcases hpy : p y <;> simp_all
    obtain ⟨l₁, l₂, h₁, h₂, h₃⟩ := List.mergeSort_cons trans total a l
    have ih := mergeSort_two_valued p le hle l
    rw [ih] at h₂
    rcases hpa : p a with _ | _
    · have hl₁ : ∀ b ∈ l₁, p b = true := by
        intro b hb
        have hb' := h₃ b hb
        rw [hle] at hb'
        simp [hpa] at hb'
        exact hb'
      have hs := List.sorted_mergeSort trans total (a :: l)
      rw [h₁] at hs
      obtain ⟨pw₁, pw₂, hrel⟩ := List.pairwise_append.mp hs
      have hle_a : ∀ x ∈ l₂, le a x := fun x hx => (List.pairwise_cons.mp pw₂).1 x hx
      rcases List.append_eq_append_iff.mp h₂ with ⟨a', ha₁, ha₂⟩ | ⟨c', hc₁, hc₂⟩
      · cases a' with
        | nil =>
          rw [List.append_nil] at ha₁
          rw [List.nil_append] at ha₂
          rw [h₁, List.filter_cons, List.filter_cons]
          simp [hpa, ha₁, ha₂]
        | cons x xs =>
          exfalso
          have hx1 : x ∈ l₁ := by
            rw [ha₁]
            exact List.mem_append_right _ (List.mem_cons_self x xs)
          have hpx := hl₁ x hx1
          have hxf : x ∈ l.filter (fun a => !(p a)) := by
            rw [ha₂]
            exact List.mem_append_left _ (List.mem_cons_self x xs)
          have := (List.mem_filter.mp hxf).2
          simp [hpx] at this
      · cases c' with
        | nil =>
          rw [List.append_nil] at hc₁
          rw [List.nil_append] at hc₂
          rw [h₁, List.filter_cons, List.filter_cons]
          simp [hpa, hc₁, hc₂]
        | cons x xs =>
          exfalso
          have hx2 : x ∈ l₂ := by
            rw [hc₂]
            exact List.mem_append_left _ (List.mem_cons_self x xs)
          have hpx : p x = true := by
            have hxf : x ∈ l.filter p := by
              rw [hc₁]
              exact List.mem_append_right l₁ (List.mem_cons_self x xs)
            exact (List.mem_filter.mp hxf).2
          have hax := hle_a x hx2
          rw [hle] at hax
          simp [hpa, hpx] at hax
    · have hl₁nil : l₁ = [] := by
        cases hl : l₁ with
        | nil => rfl
        | cons x xs =>
          exfalso
          have hx := h₃ x (by rw [hl]; exact List.mem_cons_self x xs)
          rw [hle] at hx
          simp [hpa] at hx
      rw [hl₁nil, List.nil_append] at h₁ h₂
      rw [h₁, ← h₂, List.filter_cons, List.filter_cons]
      simp [hpa]

/--
The claim's visibility condition, written from the spec's words: not
archived; completed only if "show completed" is on; matches the status
filter; matches the priority filter.
-/
def visibleSpec (now : Int) (st : FilterState) (todos : List ClientTodo) (t : ClientTodo) : Bool :=
  !(decide (t.id ∈ archivedIds now todos)) &&
  (!t.completed || st.showCompleted) &&
  (match st.filter with
   | .all => true
   | .active => !t.completed
   | .completed => t.completed) &&
  (match st.priorityFilter with
   | .anyPriority => true
   | .only p => decide (t.priority = p))

theorem passesFilters_eq_visibleSpec (now : Int) (st : FilterState)
    (todos : List ClientTodo) (t : ClientTodo) :
    passesFilters (archivedIds now todos) st t = visibleSpec now st todos t := by
  by_cases harch : t.id ∈ archivedIds now todos
  · simp [passesFilters, visibleSpec, harch]
  · cases hc : t.completed <;> cases hsc : st.showCompleted <;>
      simp [passesFilters, visibleSpec, harch, hc, hsc]

/--
**C7.** The visible list is exactly: the stored todos passing the claim's
visibility condition (not archived, completed only when "show completed",
status filter, priority filter), with the incomplete ones first in stored
order, then the completed ones in stored order.
-/
theorem filtered_characterization (now : Int) (st : FilterState) (todos : List ClientTodo) :
    filteredTodos now st todos =
      (todos.filter (visibleSpec now st todos)).filter (fun t => !t.completed) ++
        (todos.filter (visibleSpec now st todos)).filter (fun t => t.completed) ∧
    ∀ t : ClientTodo, t ∈ filteredTodos now st todos ↔
      t ∈ todos ∧ visibleSpec now st todos t = true := by
  have hfeq : todos.filter (passesFilters (archivedIds now todos) st) =
      todos.filter (visibleSpec now st todos) :=
    List.filter_congr (fun t _ => passesFilters_eq_visibleSpec now st todos t)
  have hsort := mergeSort_two_valued (fun t : ClientTodo => !t.completed) completedLE
    (fun a b => by simp [completedLE]) (todos.filter (visibleSpec now st todos))
  have hmain : filteredTodos now st todos =
      (todos.filter (visibleSpec now st todos)).filter (fun t => !t.completed) ++
        (todos.filter (visibleSpec now st todos)).filter (fun t => t.completed) := by
    rw [filteredTodos, hfeq, hsort]
    congr 1
    exact List.filter_congr (fun t _ => by simp)
  refine ⟨hmain, fun t => ?_⟩
  rw [hmain]
  simp only [List.mem_append, List.mem_filter]
  constructor
  · rintro (⟨⟨ht, hv⟩, _⟩ | ⟨⟨ht, hv⟩, _⟩) <;> exact ⟨ht, hv⟩
  · rintro ⟨ht, hv⟩
    cases hc : t.completed
    · exact Or.inl ⟨⟨ht, hv⟩, by simp [hc]⟩
    · exact Or.inr ⟨⟨ht, hv⟩, by simp [hc]⟩
